import Mathlib

/-!
Verification development for the ml-recsys-tools repository.

The Python source is embedded shallowly: pandas dataframes become lists of
records, numpy floats become exact rationals, stateful objects become
explicit state records, and code that can raise becomes Except-valued
functions.  Each definition mirrors one function of the source tree; doc
comments name the source location that the definition embeds.
-/

/-- Fuel-driven floor of the base-2 logarithm on naturals.  Structural
recursion on the fuel keeps the definition kernel-reducible.  Valid whenever
the fuel is at least the input, as in natLog2 below. -/
def natLog2Aux : ℕ → ℕ → ℕ
  | 0, _ => 0
  | fuel + 1, n => if 2 ≤ n then natLog2Aux fuel (n / 2) + 1 else 0

/-- Floor of the base-2 logarithm of a positive natural (0 on 0 and 1). -/
def natLog2 (n : ℕ) : ℕ := natLog2Aux n n

/-- Lexicographic comparison of character lists via code points. -/
def charsLe : List Char → List Char → Bool
  | [], _ => true
  | _ :: _, [] => false
  | a :: as, b :: bs =>
    if a.val.toNat < b.val.toNat then true
    else if b.val.toNat < a.val.toNat then false
    else charsLe as bs

/-- String order used when pandas groupby sorts its group keys. -/
def strLe (a b : String) : Bool := charsLe a.data b.data

/-- Whether pat occurs at the start of l. -/
def listHasPre (pat : List Char) : List Char → Bool
  | [] => pat.isEmpty
  | b :: bs =>
    match pat with
    | [] => true
    | a :: as => a == b && listHasPre as bs

/-- Whether pat occurs contiguously anywhere in l. -/
def listHasSub (pat : List Char) : List Char → Bool
  | [] => pat.isEmpty
  | b :: bs => listHasPre pat (b :: bs) || listHasSub pat bs

/-- Python substring containment, as in the expression kw in message. -/
def strContains (s pat : String) : Bool := listHasSub pat.data s.data

/-!
Geo map zoom heuristic, from ml_recsys_tools/utils/geo.py,
ItemsGeoMap._zoom_heuristic.  The source computes, per axis,
int(np.log(1000 * 360 / (max_deg - min_deg) / 256) / np.log(2)) for a
positive range and 14 otherwise, then takes the min of the two axes.
Floats are idealised to exact rationals; int() truncates toward zero, so
the embedding computes the exact truncation toward zero of
log2(360000 / (256 * range)) on the numerator and denominator of the
rational range with integer division only.
-/

/-- The inner per-axis zoom computation of gm_heuristic, as a function of
the already-computed coordinate range.  When the log argument
360000 / (256 * range) is at least 1 (the test
256 * range.num <= 360000 * range.den), the truncation equals the floor of
the log; below 1 the truncation toward zero is minus the floor of the log
of the reciprocal. -/
def gm_range_zoom (range : ℚ) : ℤ :=
  if 0 < range then
    if 256 * range.num ≤ 360000 * (range.den : ℤ) then
      (natLog2 ((360000 * (range.den : ℤ)) / (256 * range.num)).toNat : ℤ)
    else
      -(natLog2 ((256 * range.num) / (360000 * (range.den : ℤ))).toNat : ℤ)
  else 14

/-- gm_heuristic(min_deg, max_deg) of the source: zoom for one axis. -/
def gm_heuristic (min_deg max_deg : ℚ) : ℤ :=
  gm_range_zoom (max_deg - min_deg)

/-- Ceiling of log2(p / q) for integers 0 < q <= p, used only to state the
zoom formula exactly as the spec words it (a floor of log2, which for an
argument below 1 is minus this ceiling applied to the reciprocal). -/
def ceilLog2Pos (p q : ℤ) : ℤ :=
  let l := natLog2 (p / q).toNat
  if p = 2 ^ l * q then (l : ℤ) else (l : ℤ) + 1

/-- Zoom formula transcribed from the spec text: floor(log2(1000 * 360 /
range / 256)) for a nonzero range and 14 for a zero range.  This is the
spec-side definition used to compare the code embedding against the words
of the spec; it differs from gm_range_zoom only when the log argument is
below 1, that is when the range exceeds 1406.25 degrees. -/
def spec_zoom_axis (range : ℚ) : ℤ :=
  if 0 < range then
    if 256 * range.num ≤ 360000 * (range.den : ℤ) then
      (natLog2 ((360000 * (range.den : ℤ)) / (256 * range.num)).toNat : ℤ)
    else
      -(ceilLog2Pos (256 * range.num) (360000 * (range.den : ℤ)))
  else 14

/-- Column minimum (np.min over a dataframe column); meaningful on
nonempty columns, as in the source where an empty frame is an error. -/
def colMinQ (l : List ℚ) : ℚ := l.foldr min (l.head?.getD 0)

/-- Column maximum (np.max over a dataframe column). -/
def colMaxQ (l : List ℚ) : ℚ := l.foldr max (l.head?.getD 0)

/-- ItemsGeoMap._zoom_heuristic: per-axis zooms from the latitude and
longitude ranges of the item set, combined with min. -/
def zoom_heuristic (items : List (ℚ × ℚ)) : ℤ :=
  min (gm_heuristic (colMinQ (items.map Prod.fst)) (colMaxQ (items.map Prod.fst)))
      (gm_heuristic (colMinQ (items.map Prod.snd)) (colMaxQ (items.map Prod.snd)))

/-!
Instrumentation wrappers, from ml_recsys_tools/utils/instrumentation.py.
Wall-clock time, memory percentages and the stack depth are runtime
observations with no counterpart in a pure embedding, so they enter as an
explicit observation record; the logger becomes an explicit list of emitted
lines.  The rendering of an arbitrary Python result by variable_info is
abstracted into a caller-supplied info function.
-/

/-- Threshold below which log_time_and_shape stays silent (seconds). -/
def MIN_TIME_TO_LOG : ℚ := 1

/-- Runtime observations made by the wrappers during one call. -/
structure InstrObs where
  elapsed : ℚ
  cur_mem : ℚ
  peak_mem : ℚ
  stack_depth : ℕ

/-- log_time_and_shape: runs the wrapped function, builds the log line of
the source (indent, class-qualified name, elapsed, result description,
memory) and emits it only when the elapsed time reaches MIN_TIME_TO_LOG;
the wrapped result is returned unchanged. -/
def log_time_and_shape {α β : Type} (fn : α → β) (info : β → String)
    (fn_str : String) (obs : InstrObs) (log : List String) (a : α) :
    β × List String :=
  let result := fn a
  let msg := String.join
    [String.mk (List.replicate obs.stack_depth ' '), fn_str,
     ", elapsed: ", toString obs.elapsed, ", returned: ", info result,
     ", sys mem: ", toString obs.cur_mem, "%(peak:", toString obs.peak_mem, "%)"]
  (result, if MIN_TIME_TO_LOG ≤ obs.elapsed then log ++ [msg] else log)

/-- timer_deco: runs the wrapped function, logs the elapsed time
unconditionally, and returns the wrapped result unchanged. -/
def timer_deco {α β : Type} (fn : α → β) (fn_name : String)
    (obs : InstrObs) (log : List String) (a : α) : β × List String :=
  let result := fn a
  (result,
   log ++ [String.join ["function ", fn_name, ": ", toString obs.elapsed, " s"]])

/-!
Parameter dictionaries, from ml_recsys_tools/recommenders/recommender_base.py,
BaseDFRecommender._dict_update / _set_model_params / _set_fit_params /
set_params.  Python dicts become association lists looked up by first
match; d.copy() followed by d.update(u) is the merge that prefers u.
-/

/-- Dictionary lookup (first entry whose key matches). -/
def dictLookup {V : Type} (d : List (String × V)) (k : String) : Option V :=
  (d.find? (fun p => p.1 == k)).map Prod.snd

/-- _dict_update(d, u): copy d and update it with u; an empty (falsy) u
leaves d untouched.  Lookup-level semantics: keys of u take the value from
u, every other key keeps its value from d. -/
def dict_update {V : Type} (d u : List (String × V)) : List (String × V) :=
  if u.isEmpty then d
  else u ++ d.filter (fun p => (dictLookup u p.1).isNone)

/-- The two stored parameter dictionaries of BaseDFRecommender. -/
structure ParamsState (V : Type) where
  model_params : List (String × V)
  fit_params : List (String × V)

/-- _set_model_params: merge params into the stored model parameters. -/
def set_model_params {V : Type} (s : ParamsState V) (params : List (String × V)) :
    ParamsState V :=
  { s with model_params := dict_update s.model_params params }

/-- _set_fit_params: merge params into the stored fit parameters. -/
def set_fit_params {V : Type} (s : ParamsState V) (params : List (String × V)) :
    ParamsState V :=
  { s with fit_params := dict_update s.fit_params params }

/-- set_params: the skopt / sklearn entry point, delegating to
_set_model_params. -/
def set_params {V : Type} (s : ParamsState V) (params : List (String × V)) :
    ParamsState V :=
  set_model_params s params

/-!
Interrupt control file, from RecoBayesSearchHoldOut._check_interrupt in
ml_recsys_tools/recommenders/recommender_base.py.  The file system is a
time-indexed oracle: file t is the first line of the control file at the
t-th read, none when the file does not exist then.  The unbounded pause
polling loop is driven by explicit fuel; every claim that matters concerns
the branches that terminate within one step.
-/

/-- Observable outcome of one _check_interrupt call. -/
inductive InterruptOutcome
  | interruptedError
  | notImplementedError
  | fileNotFoundError
  | noop
  | outOfFuel
deriving DecidableEq

/-- Outcome of the inner while-pause polling loop. -/
inductive PauseResult
  | resumed (t : ℕ)
  | fileGone
  | outOfFuel
deriving DecidableEq

/-- The while pause-in-message loop: sleep, reopen the file (a missing file
here raises, since only the outer check guards existence) and reread the
first line, until the line no longer contains pause. -/
def pause_loop (file : ℕ → Option String) : ℕ → String → ℕ → PauseResult
  | 0, message, t =>
    if strContains message "pause" then .outOfFuel else .resumed t
  | fuel + 1, message, t =>
    if strContains message "pause" then
      match file t with
      | none => .fileGone
      | some m => pause_loop file fuel m (t + 1)
    else .resumed t

/-- _check_interrupt with the control file configured: read the first line
if the file exists; stop raises InterruptedError; pause polls until the
line drops pause and then re-checks from scratch; update raises
NotImplementedError; anything else is a no-op. -/
def check_interrupt (file : ℕ → Option String) : ℕ → ℕ → InterruptOutcome
  | 0, _ => .outOfFuel
  | fuel + 1, t =>
    match file t with
    | none => .noop
    | some message =>
      if strContains message "stop" then .interruptedError
      else if strContains message "pause" then
        match pause_loop file fuel message (t + 1) with
        | .resumed t2 => check_interrupt file fuel t2
        | .fileGone => .fileNotFoundError
        | .outOfFuel => .outOfFuel
      else if strContains message "update" then .notImplementedError
      else .noop

/-- _check_interrupt including the guard on interrupt_message_file being
configured: an unconfigured path is a no-op. -/
def check_interrupt_opt (cfg : Option (ℕ → Option String)) (fuel t : ℕ) :
    InterruptOutcome :=
  match cfg with
  | none => .noop
  | some file => check_interrupt file fuel t

/-!
Hyperparameter trial objective, from RecoBayesSearchHoldOut.objective_func.
The pipeline operations that can raise become Except-valued fields; the
logger becomes a list.  Recording into the metrics table touches no value
the claims mention and is omitted from the state.
-/

/-- The fallible operations one trial performs, in source order:
_check_interrupt, init_pipeline, fit, eval_on_test_by_ranking, and the
lookup of the target metric in the report. -/
structure TrialOps (P R : Type) where
  check_trial_interrupt : Except String Unit
  init_pipeline : Except String P
  fit : P → Except String P
  eval_on_test : P → Except String R
  metric_of : R → Except String ℚ

/-- The body of the try block of objective_func: run the trial and compute
loss = 1 - report[test, metric]. -/
def trial_body {P R : Type} (ops : TrialOps P R) : Except String ℚ :=
  ops.check_trial_interrupt >>= fun _ =>
  ops.init_pipeline >>= fun p =>
  ops.fit p >>= fun p2 =>
  ops.eval_on_test p2 >>= fun r =>
  ops.metric_of r >>= fun m =>
  pure (1 - m)

/-- objective_func: return the loss of a successful trial; any exception is
caught, the exception and the sampled values are logged, and the worst
loss 1.0 is returned so the surrounding search continues. -/
def objective_func {P R : Type} (ops : TrialOps P R) (log : List String)
    (values : String) : ℚ × List String :=
  match trial_body ops with
  | .ok loss => (loss, log)
  | .error e => (1, log ++ [e, values])

/-!
Recommendation result frames and the sparse recommender base, from
ml_recsys_tools/recommenders/recommender_base.py.  A flat result frame is a
list of (source id, target id, score) rows; identifiers of any Python type
are idealised to strings (the source casts them to str for its own
comparisons).  For similarity results the user field of a row plays the
item-source column role.  Ratings are rationals, so a training row always
has a non-null rating, as the left-merge filter of the source assumes.
-/

/-- One row of a flat result frame: (user, item, prediction). -/
structure RecoRow where
  user : String
  item : String
  score : ℚ
deriving DecidableEq

/-- One row of the training observations frame: (user, item, rating). -/
structure TrainRow where
  user : String
  item : String
  rating : ℚ
deriving DecidableEq

/-- One row of a lists-format result frame: a group key with its items and
scores collapsed to sequences. -/
structure GroupedRow where
  group : String
  items : List String
  scores : List ℚ
deriving DecidableEq

/-- A result frame in either of the two canonical shapes. -/
inductive RecoOutput
  | flat (rows : List RecoRow)
  | lists (rows : List GroupedRow)
deriving DecidableEq

/-- Whether a result in either shape contains the (source, target) pair. -/
def output_contains_pair (out : RecoOutput) (u i : String) : Bool :=
  match out with
  | .flat rows => rows.any (fun r => r.user == u && r.item == i)
  | .lists gs => gs.any (fun g => g.group == u && g.items.contains i)

/-- The state of BaseDFSparseRecommender that the embedded operations read:
the raw training dataframe. -/
structure RecommenderState where
  train_df : List TrainRow

/-- all_users: distinct user ids of the training frame. -/
def all_users (s : RecommenderState) : List String :=
  (s.train_df.map (fun t => t.user)).dedup

/-- all_items: distinct item ids of the training frame. -/
def all_items (s : RecommenderState) : List String :=
  (s.train_df.map (fun t => t.item)).dedup

/-- remove_unseen_users: keep the ids present in the training frame. -/
def remove_unseen_users (s : RecommenderState) (ids : List String) : List String :=
  ids.filter (fun u => (all_users s).contains u)

/-- remove_unseen_items: keep the ids present in the training frame. -/
def remove_unseen_items (s : RecommenderState) (ids : List String) : List String :=
  ids.filter (fun i => (all_items s).contains i)

/-- One entry of train_df.userid.value_counts(): the training interaction
count of one user. -/
def user_train_count (s : RecommenderState) (u : String) : ℕ :=
  (s.train_df.filter (fun t => t.user == u)).length

/-- _separate_heavy_users: split the distinct requested users that have any
training interactions into heavy (count at least the threshold) and normal
(count below it), also returning the maximum heavy count.  The
count-descending order of value_counts is abstracted to first-occurrence
order; every property proved is insensitive to the order inside a group.
On an empty heavy group the source max() is NaN and is never consumed; the
embedding returns 0 there, equally unconsumed. -/
def separate_heavy_users (s : RecommenderState) (user_ids : List String)
    (threshold : ℕ) : List String × List String × ℕ :=
  let ids := user_ids.dedup.filter (fun u => 0 < user_train_count s u)
  let heavy := ids.filter (fun u => threshold ≤ user_train_count s u)
  let normal := ids.filter (fun u => user_train_count s u < threshold)
  (heavy, normal, (heavy.map (fun u => user_train_count s u)).foldr max 0)

/-- The per-group unfiltered requests issued by the loop of
get_recommendations: the heavy group with width n_rec_unfilt plus the
maximum heavy count, then the normal group with width n_rec_unfilt, each
skipped when empty. -/
def reco_user_groups (s : RecommenderState) (user_ids : List String)
    (n_rec_unfilt : ℕ) : List (List String × ℕ) :=
  let sep := separate_heavy_users s user_ids 50
  (if sep.1.isEmpty then [] else [(sep.1, n_rec_unfilt + sep.2.2)]) ++
  (if sep.2.1.isEmpty then [] else [(sep.2.1, n_rec_unfilt)])

/-- _remove_training_from_df: the left merge of the flat frame with the
training frame on (user, item) followed by keeping the rows whose merged
rating is null - that is, dropping every row whose (user, item) pair has a
training interaction. -/
def remove_training_from_df (train : List TrainRow) (flat : List RecoRow) :
    List RecoRow :=
  flat.filter (fun r => !(train.any (fun t => t.user == r.user && t.item == r.item)))

/-- Insert one row into a score-descending row list (stable). -/
def insertRowDesc (r : RecoRow) : List RecoRow → List RecoRow
  | [] => [r]
  | x :: xs => if decide (x.score ≤ r.score) then r :: x :: xs else x :: insertRowDesc r xs

/-- sort_values(prediction, ascending=False) on a flat frame.  The source
sort kind is unspecified on ties; the embedding uses a stable insertion
sort, and every property proved is insensitive to tie order. -/
def sort_by_score_desc (df : List RecoRow) : List RecoRow :=
  df.foldr insertRowDesc []

/-- Insert one key into an ascending key list. -/
def insertKeyAsc (k : String) : List String → List String
  | [] => [k]
  | x :: xs => if strLe k x then k :: x :: xs else x :: insertKeyAsc k xs

/-- The ascending group-key order that pandas groupby applies. -/
def sortKeys (l : List String) : List String :=
  l.foldr insertKeyAsc []

/-- _flat_df_to_lists: sort by score descending, group by the source
column, and aggregate each group to its item and score sequences truncated
to n_cutoff. -/
def flat_df_to_lists (df : List RecoRow) (n_cutoff : Option ℕ) : List GroupedRow :=
  let sorted := sort_by_score_desc df
  let keys := sortKeys (df.map (fun r => r.user)).dedup
  keys.map (fun g =>
    let rows := sorted.filter (fun r => r.user == g)
    let rows := match n_cutoff with | none => rows | some n => rows.take n
    ⟨g, rows.map (fun r => r.item), rows.map (fun r => r.score)⟩)

/-- get_recommendations: resolve the user and item id arguments against the
training population, issue one unfiltered request per non-empty
heavy/normal user group, concatenate, optionally strip training pairs, and
return the flat frame or the lists frame cut to n_rec.  The abstract
per-group scorer _get_recommendations_flat_unfilt is a parameter. -/
def get_recommendations (s : RecommenderState)
    (rec_flat_unfilt : List String → List String → ℕ → List RecoRow)
    (user_ids item_ids : Option (List String)) (n_rec n_rec_unfilt : ℕ)
    (exclude_training : Bool) (results_format : String) : RecoOutput :=
  let uids := match user_ids with
    | some l => remove_unseen_users s l
    | none => all_users s
  let iids := match item_ids with
    | some l => remove_unseen_items s l
    | none => all_items s
  let recos_flat :=
    ((reco_user_groups s uids n_rec_unfilt).map
      (fun g => rec_flat_unfilt g.1 iids g.2)).flatten
  let recos_flat :=
    if exclude_training then remove_training_from_df s.train_df recos_flat
    else recos_flat
  if results_format == "flat" then .flat recos_flat
  else .lists (flat_df_to_lists recos_flat (some n_rec))

/-!
Similarity queries, from ml_recsys_tools/recommenders/factorization_base.py,
FactorizationRecommender.get_similar_items, with
BaseDFSparseRecommender._remove_self_similarities.  The numeric kernel
most_similar is a parameter returning, per queried id, the requested number
of (neighbor id, score) pairs.
-/

/-- The neighbor count passed to most_similar: n_simil+1 when the query
items are to be removed from their own neighbor lists. -/
def simil_request_width (remove_self : Bool) (n_simil : ℕ) : ℕ :=
  if remove_self then n_simil + 1 else n_simil

/-- _format_results_df for similarities_flat: one row per (source id,
neighbor, score), the user field holding the item-source column. -/
def format_similarities_flat (source_ids : List String)
    (neighbors : List (List (String × ℚ))) : List RecoRow :=
  ((source_ids.zip neighbors).map
    (fun p => p.2.map (fun nb => RecoRow.mk p.1 nb.1 nb.2))).flatten

/-- _remove_self_similarities: drop the rows whose source id equals the
neighbor id. -/
def remove_self_similarities (flat : List RecoRow) : List RecoRow :=
  flat.filter (fun r => !(r.user == r.item))

/-- get_similar_items: resolve the item ids, request
simil_request_width remove_self n_simil neighbors per item from
most_similar, flatten to a similarity frame, strip self pairs when
requested, and aggregate to lists cut at n_simil when the format asks for
lists. -/
def get_similar_items (s : RecommenderState)
    (most_similar : List String → ℕ → List (List (String × ℚ)))
    (item_ids : Option (List String)) (n_simil : ℕ) (remove_self : Bool)
    (results_format : String) : RecoOutput :=
  let iids := match item_ids with
    | some l => remove_unseen_items s l
    | none => all_items s
  let neighbors := most_similar iids (simil_request_width remove_self n_simil)
  let simil_df := format_similarities_flat iids neighbors
  let simil_df := if remove_self then remove_self_similarities simil_df else simil_df
  if strContains results_format "lists" then
    .lists (flat_df_to_lists simil_df (some n_simil))
  else .flat simil_df

/-!
Cascade ensemble, from ml_recsys_tools/lightfm_tools/combination_ensembles.py,
CascadeEnsemble (exactly two members), with
LightFMRecommender.predict_on_df from lightfm_recommender.py.  The encoders
of predict_on_df round-trip the ids unchanged, so the pointwise model
enters as a function of the raw (user, item) pair.
-/

/-- predict_on_df: keep every row of the frame and overwrite its prediction
column with the pointwise model value for that (user, item) pair. -/
def predict_on_df (predict : String → String → ℚ) (df : List RecoRow) :
    List RecoRow :=
  df.map (fun r => RecoRow.mk r.user r.item (predict r.user r.item))

/-- CascadeEnsemble._get_recommendations_flat_unfilt: stage one generates
the unfiltered candidate frame, stage two re-scores exactly that frame. -/
def cascade_get_recommendations_flat_unfilt
    (stage_one : List String → ℕ → List RecoRow)
    (stage_two_predict : String → String → ℚ)
    (user_ids : List String) (n_rec_unfilt : ℕ) : List RecoRow :=
  predict_on_df stage_two_predict (stage_one user_ids n_rec_unfilt)

/-- The (source, target) pair column of a flat frame. -/
def frame_pairs (df : List RecoRow) : List (String × String) :=
  df.map (fun r => (r.user, r.item))

/-!
Rank-fusion ensemble, from ml_recsys_tools/lightfm_tools/combination_ensembles.py,
CombinedRankEnsemble.calc_dfs_and_combine_scores and
_get_recommendations_flat_unfilt.  Each member frame is ranked within its
groups (pandas rank, ascending=False, default average tie method), the rank
frames are outer-merged pairwise on (group, item), missing ranks are filled
with fill_val, and the fused score is combine_func applied per row to the
reciprocals of the rank vector.
-/

/-- A row of the running merged frame: the key pair plus one rank column
per member processed so far, none standing for the NaN of an outer merge
miss. -/
structure MergedRow where
  group : String
  item : String
  ranks : List (Option ℚ)
deriving DecidableEq

/-- groupby(group)[score].rank(ascending=False) for one row: one plus the
number of strictly better rows of its group, with tied rows averaged over
their positions. -/
def pandas_rank_desc (df : List RecoRow) (r : RecoRow) : ℚ :=
  let grp := df.filter (fun x => x.user == r.user)
  let n_gt := (grp.filter (fun x => decide (r.score < x.score))).length
  let n_eq := (grp.filter (fun x => decide (x.score = r.score))).length
  (n_gt : ℚ) + ((n_eq : ℚ) + 1) / 2

/-- The rank frame of one member: its rank column computed and its score
column dropped, keeping (group, item, rank). -/
def rank_col (df : List RecoRow) : List (String × String × ℚ) :=
  df.map (fun r => (r.user, r.item, pandas_rank_desc df r))

/-- The (group, item) pair column of a rank frame. -/
def triple_pairs (df : List (String × String × ℚ)) : List (String × String) :=
  df.map (fun m => (m.1, m.2.1))

/-- The (group, item) pair column of the merged frame. -/
def merged_pairs (rows : List MergedRow) : List (String × String) :=
  rows.map (fun r => (r.group, r.item))

/-- The join of one accumulated row with a rank frame: one output row per
key-matching frame row, or the accumulated row extended with a missing
rank when the frame has no match. -/
def join_row (df : List (String × String × ℚ)) (a : MergedRow) : List MergedRow :=
  let ms := df.filter (fun m => m.1 == a.group && m.2.1 == a.item)
  if ms.isEmpty then [MergedRow.mk a.group a.item (a.ranks ++ [none])]
  else ms.map (fun m => MergedRow.mk a.group a.item (a.ranks ++ [some m.2.2]))

/-- One pd.merge(merged_df, df, on=[group, item], how=outer) step, where
the accumulated frame carries k rank columns: every accumulated row is
joined with the key-matching rows of df, and the df rows whose key is new
get missing ranks in the first k columns. -/
def merge_outer (acc : List MergedRow) (k : ℕ) (df : List (String × String × ℚ)) :
    List MergedRow :=
  (acc.map (join_row df)).flatten
  ++ ((df.filter (fun m => !(acc.any (fun a => a.group == m.1 && a.item == m.2.1)))).map
      (fun m => MergedRow.mk m.1 m.2.1 (List.replicate k none ++ [some m.2.2])))

/-- Fold of merge_outer over the remaining rank frames, k being the number
of rank columns accumulated so far. -/
def merge_ranked : List MergedRow → ℕ → List (List (String × String × ℚ)) →
    List MergedRow
  | acc, _, [] => acc
  | acc, k, df :: rest => merge_ranked (merge_outer acc k df) (k + 1) rest

/-- The first rank frame seeds the merged frame (merged_df is None before
the first loop iteration of the source). -/
def init_merged (df : List (String × String × ℚ)) : List MergedRow :=
  df.map (fun m => MergedRow.mk m.1 m.2.1 [some m.2.2])

/-- The outer merge of all the rank frames of the members, in member
order. -/
def merge_all : List (List (String × String × ℚ)) → List MergedRow
  | [] => []
  | df :: rest => merge_ranked (init_merged df) 1 rest

/-- merged_df.fillna(fill_val) restricted to the rank columns (the only
columns that can be missing). -/
def fill_na (fill : ℚ) (rows : List MergedRow) :
    List (String × String × List ℚ) :=
  rows.map (fun r => (r.group, r.item, r.ranks.map (fun o => o.getD fill)))

/-- The reciprocal rank vectors handed row-wise to combine_func: the merged
and filled rank frame of the member frames, each rank inverted. -/
def recip_rank_rows (frames : List (List RecoRow)) (fill : ℚ) :
    List (String × String × List ℚ) :=
  (fill_na fill (merge_all (frames.map rank_col))).map
    (fun r => (r.1, r.2.1, r.2.2.map (fun x => 1 / x)))

/-- Ranking, merging, filling and combining the member frames into the
fused flat frame. -/
def combine_frames (frames : List (List RecoRow)) (combine_func : List ℚ → ℚ)
    (fill_val : ℚ) : List RecoRow :=
  (recip_rank_rows frames fill_val).map
    (fun r => RecoRow.mk r.1 r.2.1 (combine_func r.2.2))

/-- calc_dfs_and_combine_scores: with multithreaded the member frames are
precomputed by the thread pool (order-preserving map) and the loop indexes
into them; otherwise the loop calls each member function in order.  Both
paths feed the same frames to the same fusion. -/
def calc_dfs_and_combine_scores (multithreaded : Bool)
    (calc_funcs : List (Unit → List RecoRow)) (combine_func : List ℚ → ℚ)
    (fill_val : ℚ) : List RecoRow :=
  let dfs := if multithreaded then calc_funcs.map (fun f => f ()) else []
  let frames := if dfs.isEmpty then calc_funcs.map (fun f => f ()) else dfs
  combine_frames frames combine_func fill_val

/-- The fill value of CombinedRankEnsemble._get_recommendations_flat_unfilt:
self.fill_na_val if self.fill_na_val else (n_rec_unfilt + 1), with Python
truthiness making both None and 0 fall back to n_rec_unfilt + 1. -/
def combined_rank_fill_val (fill_na_val : Option ℚ) (n_unfilt : ℕ) : ℚ :=
  match fill_na_val with
  | none => (n_unfilt : ℚ) + 1
  | some v => if v = 0 then (n_unfilt : ℚ) + 1 else v

/-- CombinedRankEnsemble._get_recommendations_flat_unfilt: fuse the member
unfiltered candidate frames for the requested users with the configured
combination function and the default fill n_rec_unfilt + 1. -/
def combined_get_recommendations_flat_unfilt
    (members : List (List String → ℕ → List RecoRow))
    (fill_na_val : Option ℚ) (combine_func : List ℚ → ℚ)
    (user_ids : List String) (n_rec_unfilt : ℕ) : List RecoRow :=
  calc_dfs_and_combine_scores false
    (members.map (fun rec => fun _ => rec user_ids n_rec_unfilt))
    combine_func (combined_rank_fill_val fill_na_val n_rec_unfilt)

/-!
Concrete fixtures used by witnesses and by the existential halves of the
claims.
-/

/-- A training frame with one interaction: user u1 rated item i1. -/
def demo_train : List TrainRow := [⟨"u1", "i1", 1⟩]

/-- Recommender state over demo_train. -/
def demo_state : RecommenderState := ⟨demo_train⟩

/-- A member scorer whose unfiltered candidates are exactly the training
pair of demo_train, with a high score. -/
def demo_scorer : List String → List String → ℕ → List RecoRow :=
  fun _ _ _ => [⟨"u1", "i1", 5⟩]

/-- A training frame with one heavy user (50 interactions) and one normal
user (one interaction). -/
def heavy_demo_train : List TrainRow :=
  (List.replicate 50 ⟨"uh", "ih", 1⟩) ++ [⟨"un", "jn", 1⟩]

/-- Recommender state over heavy_demo_train. -/
def heavy_demo_state : RecommenderState := ⟨heavy_demo_train⟩

/-!
Theorems.  Shared helper lemmas come first, then one theorem per claim
with its witness or counterexample.
-/

/-- Claim C10: for every function and every argument on which it returns,
the wrapped functions built by log_time_and_shape and timer_deco return
exactly the value of the wrapped function on that argument; the wrappers
only observe and log. -/
theorem claim_C10_wrappers_preserve_result {α β : Type} (fn : α → β)
    (info : β → String) (fn_str fn_name : String) (obs : InstrObs)
    (log : List String) (a : α) :
    (log_time_and_shape fn info fn_str obs log a).1 = fn a ∧
    (timer_deco fn fn_name obs log a).1 = fn a :=
  ⟨rfl, rfl⟩

/-- Claim C5: if checking the interrupt file succeeds but instantiating,
fitting, or evaluating the pipeline (or reading the target metric from the
report) raises, objective_func catches the exception, logs it together
with the sampled parameter values, and returns the loss 1.0; a successful
trial returns its computed loss.  The return type being a plain value, no
exception ever propagates to the search loop. -/
theorem claim_C5_objective_func_catches {P R : Type} (ops : TrialOps P R)
    (log : List String) (values e : String) :
    (ops.check_trial_interrupt = .ok () → ops.init_pipeline = .error e →
       objective_func ops log values = (1, log ++ [e, values])) ∧
    (∀ p, ops.check_trial_interrupt = .ok () → ops.init_pipeline = .ok p →
       ops.fit p = .error e →
       objective_func ops log values = (1, log ++ [e, values])) ∧
    (∀ p p2, ops.check_trial_interrupt = .ok () → ops.init_pipeline = .ok p →
       ops.fit p = .ok p2 → ops.eval_on_test p2 = .error e →
       objective_func ops log values = (1, log ++ [e, values])) ∧
    (∀ p p2 r, ops.check_trial_interrupt = .ok () → ops.init_pipeline = .ok p →
       ops.fit p = .ok p2 → ops.eval_on_test p2 = .ok r →
       ops.metric_of r = .error e →
       objective_func ops log values = (1, log ++ [e, values])) ∧
    (∀ q, trial_body ops = .ok q → objective_func ops log values = (q, log)) := by
  refine ⟨?_, ?_, ?_, ?_, ?_⟩
  · intro h1 h2
    simp [objective_func, trial_body, h1, h2, Bind.bind, Except.bind]
  · intro p h1 h2 h3
    simp [objective_func, trial_body, h1, h2, h3, Bind.bind, Except.bind]
  · intro p p2 h1 h2 h3 h4
    simp [objective_func, trial_body, h1, h2, h3, h4, Bind.bind, Except.bind]
  · intro p p2 r h1 h2 h3 h4 h5
    simp [objective_func, trial_body, h1, h2, h3, h4, h5, Bind.bind, Except.bind]
  · intro q h
    simp [objective_func, h]

/-- Witness for claim C5 at a pipeline whose fit raises. -/
theorem claim_C5_witness :
    objective_func
      (⟨Except.ok (), Except.ok (), fun _ => Except.error "boom",
        fun _ => Except.ok (), fun _ => Except.ok 0⟩ : TrialOps Unit Unit)
      [] "sampled-values" = (1, [] ++ ["boom", "sampled-values"]) :=
  (claim_C5_objective_func_catches
      (⟨Except.ok (), Except.ok (), fun _ => Except.error "boom",
        fun _ => Except.ok (), fun _ => Except.ok 0⟩ : TrialOps Unit Unit)
      [] "sampled-values" "boom").2.1 () rfl rfl rfl

/-- Claim C6: with the control file configured and present,
_check_interrupt raises an interruption error when the first line contains
stop, raises a not-implemented error when it contains update but neither
stop nor pause, and does nothing when the path is unconfigured, the file
is absent, or the line holds no recognized keyword. -/
theorem claim_C6_check_interrupt (file : ℕ → Option String) (fuel t : ℕ)
    (message : String) :
    (check_interrupt_opt none (fuel + 1) t = .noop) ∧
    (file t = none → check_interrupt file (fuel + 1) t = .noop) ∧
    (file t = some message → strContains message "stop" = true →
       check_interrupt file (fuel + 1) t = .interruptedError) ∧
    (file t = some message → strContains message "stop" = false →
       strContains message "pause" = false → strContains message "update" = true →
       check_interrupt file (fuel + 1) t = .notImplementedError) ∧
    (file t = some message → strContains message "stop" = false →
       strContains message "pause" = false → strContains message "update" = false →
       check_interrupt file (fuel + 1) t = .noop) := by
  refine ⟨rfl, ?_, ?_, ?_, ?_⟩
  · intro h
    simp [check_interrupt, h]
  · intro h hstop
    simp [check_interrupt, h, hstop]
  · intro h hstop hpause hupd
    simp [check_interrupt, h, hstop, hpause, hupd]
  · intro h hstop hpause hupd
    simp [check_interrupt, h, hstop, hpause, hupd]

/-- Witness for claim C6 on four concrete control files. -/
theorem claim_C6_witness :
    check_interrupt (fun _ => some "stop") 5 0 = .interruptedError ∧
    check_interrupt (fun _ => some "please update") 5 0 = .notImplementedError ∧
    check_interrupt (fun _ => none) 5 0 = .noop ∧
    check_interrupt (fun _ => some "hello") 5 0 = .noop :=
  ⟨(claim_C6_check_interrupt (fun _ => some "stop") 4 0 "stop").2.2.1
      rfl (by decide),
   (claim_C6_check_interrupt (fun _ => some "please update") 4 0
      "please update").2.2.2.1 rfl (by decide) (by decide) (by decide),
   (claim_C6_check_interrupt (fun _ => none) 4 0 "").2.1 rfl,
   (claim_C6_check_interrupt (fun _ => some "hello") 4 0 "hello").2.2.2.2
      rfl (by decide) (by decide) (by decide)⟩

/-- dictLookup distributes over append, preferring the left list. -/
theorem dictLookup_append {V : Type} (a b : List (String × V)) (k : String) :
    dictLookup (a ++ b) k =
      match dictLookup a k with
      | some v => some v
      | none => dictLookup b k := by
  unfold dictLookup
  rw [List.find?_append]
  cases a.find? (fun p => p.1 == k) <;> simp

/-- Looking a key up in the filtered remainder of a merge equals looking it
up in the original dictionary, provided the update does not bind the key. -/
theorem find_filter_unbound_key {V : Type} (u : List (String × V)) (k : String)
    (h : dictLookup u k = none) (d : List (String × V)) :
    (d.filter (fun p => (dictLookup u p.1).isNone)).find? (fun p => p.1 == k) =
      d.find? (fun p => p.1 == k) := by
  induction d with
  | nil => rfl
  | cons p d ih =>
    by_cases hpk : p.1 = k
    · have hkeep : (dictLookup u p.1).isNone = true := by
        rw [hpk, h]; rfl
      have hbeq : (p.1 == k) = true := by simp [hpk]
      rw [List.filter_cons, if_pos hkeep]
      simp only [List.find?_cons, hbeq]
    · have hbeq : (p.1 == k) = false := by simp [hpk]
      by_cases hkeep : (dictLookup u p.1).isNone = true
      · rw [List.filter_cons, if_pos hkeep]
        simp only [List.find?_cons, hbeq, ih]
      · rw [List.filter_cons, if_neg hkeep]
        simp only [List.find?_cons, hbeq, ih]

/-- dict_update on a key the update does not bind keeps the old value. -/
theorem dictLookup_dict_update_none {V : Type} (d u : List (String × V))
    (k : String) (h : dictLookup u k = none) :
    dictLookup (dict_update d u) k = dictLookup d k := by
  unfold dict_update
  by_cases hu : u.isEmpty
  · simp [hu]
  · rw [if_neg hu, dictLookup_append, h]
    exact congrArg (Option.map Prod.snd) (find_filter_unbound_key u k h d)

/-- dict_update on a key the update binds takes the updated value. -/
theorem dictLookup_dict_update_some {V : Type} (d u : List (String × V))
    (k : String) (v : V) (h : dictLookup u k = some v) :
    dictLookup (dict_update d u) k = some v := by
  unfold dict_update
  have hne : u.isEmpty = false := by
    cases u with
    | nil => simp [dictLookup] at h
    | cons p l => rfl
  rw [if_neg (by simp [hne]), dictLookup_append, h]

/-- Claim C8: set_params, _set_model_params and _set_fit_params update the
stored parameter dictionaries by shallow merge: a key the incoming mapping
does not bind keeps its previous value, a bound key takes the incoming
value, and the dictionary the setter does not target is untouched. -/
theorem claim_C8_param_update_shallow_merge {V : Type} (s : ParamsState V)
    (u : List (String × V)) (k : String) :
    ((set_model_params s u).fit_params = s.fit_params) ∧
    ((set_fit_params s u).model_params = s.model_params) ∧
    (dictLookup u k = none →
      dictLookup (set_params s u).model_params k = dictLookup s.model_params k ∧
      dictLookup (set_model_params s u).model_params k = dictLookup s.model_params k ∧
      dictLookup (set_fit_params s u).fit_params k = dictLookup s.fit_params k) ∧
    (∀ v, dictLookup u k = some v →
      dictLookup (set_params s u).model_params k = some v ∧
      dictLookup (set_model_params s u).model_params k = some v ∧
      dictLookup (set_fit_params s u).fit_params k = some v) := by
  refine ⟨rfl, rfl, ?_, ?_⟩
  · intro h
    exact ⟨dictLookup_dict_update_none _ _ _ h,
           dictLookup_dict_update_none _ _ _ h,
           dictLookup_dict_update_none _ _ _ h⟩
  · intro v h
    exact ⟨dictLookup_dict_update_some _ _ _ _ h,
           dictLookup_dict_update_some _ _ _ _ h,
           dictLookup_dict_update_some _ _ _ _ h⟩

/-- Witness for claim C8 on concrete dictionaries: an update binding only
the key lr leaves the key rank untouched and overrides lr. -/
theorem claim_C8_witness :
    dictLookup [("lr", 2)] "rank" = none ∧
    dictLookup
      (set_params (⟨[("rank", 10), ("lr", 1)], [("epochs", 5)]⟩ : ParamsState ℕ)
        [("lr", 2)]).model_params "rank" =
      dictLookup [("rank", 10), ("lr", 1)] "rank" ∧
    dictLookup
      (set_params (⟨[("rank", 10), ("lr", 1)], [("epochs", 5)]⟩ : ParamsState ℕ)
        [("lr", 2)]).model_params "lr" = some 2 :=
  ⟨by decide,
   ((claim_C8_param_update_shallow_merge
      (⟨[("rank", 10), ("lr", 1)], [("epochs", 5)]⟩ : ParamsState ℕ)
      [("lr", 2)] "rank").2.2.1 (by decide)).1,
   ((claim_C8_param_update_shallow_merge
      (⟨[("rank", 10), ("lr", 1)], [("epochs", 5)]⟩ : ParamsState ℕ)
      [("lr", 2)] "lr").2.2.2 2 (by decide)).1⟩

/-- Claim C9 (amended): per axis the code computes the truncation toward
zero of log2(1000 * 360 / range / 256), which agrees with the floor of the
log stated by the spec whenever the log argument is at least 1, that is
whenever 256 * range.num <= 360000 * range.den (range at most 1406.25
degrees - every real map range); a zero range gives exactly 14, a
single-point item set gives overall zoom 14, and a 1-degree range gives 10
on that axis. -/
theorem claim_C9_zoom_heuristic_trunc (range min_deg max_deg : ℚ)
    (hr : max_deg - min_deg = range) (h0 : 0 < range)
    (hb : 256 * range.num ≤ 360000 * (range.den : ℤ)) :
    gm_heuristic min_deg max_deg = spec_zoom_axis range ∧
    (∀ c : ℚ, gm_heuristic c c = 14) ∧
    gm_heuristic 0 1 = 10 ∧
    (∀ p : ℚ × ℚ, zoom_heuristic [p] = 14) := by
  refine ⟨?_, ?_, ?_, ?_⟩
  · rw [gm_heuristic, hr, gm_range_zoom, spec_zoom_axis, if_pos h0, if_pos h0,
      if_pos hb, if_pos hb]
  · intro c
    rw [gm_heuristic, sub_self]
    rfl
  · rw [gm_heuristic, sub_zero]
    decide
  · intro p
    have haxis : ∀ q : ℚ, gm_heuristic q q = 14 := by
      intro q
      rw [gm_heuristic, sub_self]
      rfl
    simp [zoom_heuristic, colMinQ, colMaxQ, haxis]

/-- Witness for claim C9 at a 1-degree range. -/
theorem claim_C9_witness : gm_heuristic 0 1 = 10 :=
  (claim_C9_zoom_heuristic_trunc 1 0 1 (sub_zero 1) (by decide) (by decide)).2.2.1

/-- Counterexample for claim C9 as stated: on an item set whose latitude
range is 2000 degrees the code value (truncation toward zero, 0) differs
from the floor formula of the claim (-1); int() in Python truncates toward
zero, which is not the floor once the log argument drops below 1. -/
theorem claim_C9_counterexample :
    zoom_heuristic [(0, 0), (2000, 0)] = 0 ∧
    min (spec_zoom_axis 2000) (spec_zoom_axis 0) = -1 ∧
    gm_heuristic 0 2000 ≠ spec_zoom_axis (2000 - 0) := by
  have h2000 : (2000 : ℚ) - 0 = 2000 := sub_zero 2000
  have hz : (0 : ℚ) - 0 = 0 := sub_zero 0
  refine ⟨?_, ?_, ?_⟩
  · show min (gm_heuristic (colMinQ [0, 2000]) (colMaxQ [0, 2000]))
        (gm_heuristic (colMinQ [0, 0]) (colMaxQ [0, 0])) = 0
    have hmin1 : colMinQ [0, 2000] = 0 := by decide
    have hmax1 : colMaxQ [0, 2000] = 2000 := by decide
    have hmin2 : colMinQ [0, 0] = 0 := by decide
    have hmax2 : colMaxQ [0, 0] = 0 := by decide
    rw [hmin1, hmax1, hmin2, hmax2, gm_heuristic, gm_heuristic, h2000, hz]
    decide
  · decide
  · rw [gm_heuristic, h2000]
    decide

/-- Membership in an insertion step of the descending score sort. -/
theorem mem_insertRowDesc {x r : RecoRow} {l : List RecoRow} :
    x ∈ insertRowDesc r l ↔ x = r ∨ x ∈ l := by
  induction l with
  | nil => simp [insertRowDesc]
  | cons a l ih =>
    by_cases hc : (a.score ≤ r.score)
    · simp [insertRowDesc, hc]
    · simp [insertRowDesc, hc, ih]
      tauto

/-- Sorting a flat frame by score preserves its rows. -/
theorem mem_sort_by_score_desc {x : RecoRow} {df : List RecoRow} :
    x ∈ sort_by_score_desc df ↔ x ∈ df := by
  unfold sort_by_score_desc
  induction df with
  | nil => simp
  | cons a l ih =>
    simp only [List.foldr_cons, mem_insertRowDesc, ih, List.mem_cons]

/-- Rows surviving _remove_training_from_df clash with no training row on
the (user, item) key. -/
theorem mem_remove_training_from_df {train : List TrainRow} {flat : List RecoRow}
    {r : RecoRow} (hr : r ∈ remove_training_from_df train flat) {t : TrainRow}
    (ht : t ∈ train) : ¬(r.user = t.user ∧ r.item = t.item) := by
  rcases List.mem_filter.mp hr with ⟨-, hcond⟩
  intro hui
  have hany : train.any (fun t => t.user == r.user && t.item == r.item) = true :=
    List.any_eq_true.mpr ⟨t, ht, by simp [hui.1.symm, hui.2.symm]⟩
  rw [hany] at hcond
  simp at hcond

/-- A flat result with no row on the key pair does not contain the pair. -/
theorem output_flat_no_pair {rows : List RecoRow} {u i : String}
    (hall : ∀ r ∈ rows, ¬(r.user = u ∧ r.item = i)) :
    output_contains_pair (.flat rows) u i = false := by
  unfold output_contains_pair
  rw [List.any_eq_false]
  intro r hr
  simp only [Bool.and_eq_true, beq_iff_eq, not_and]
  intro hu hi
  exact hall r hr ⟨hu, hi⟩

/-- The lists aggregation of a flat frame with no row on the key pair does
not contain the pair either. -/
theorem output_lists_no_pair {rows : List RecoRow} {u i : String} {n : ℕ}
    (hall : ∀ r ∈ rows, ¬(r.user = u ∧ r.item = i)) :
    output_contains_pair (.lists (flat_df_to_lists rows (some n))) u i = false := by
  unfold output_contains_pair
  rw [List.any_eq_false]
  intro g hg
  obtain ⟨key, hkey, hgk⟩ := List.mem_map.mp hg
  subst hgk
  simp only [Bool.and_eq_true, beq_iff_eq, not_and]
  intro hku hcont
  have hi : i ∈ (((sort_by_score_desc rows).filter
      (fun r => r.user == key)).take n).map (fun r => r.item) := by
    simpa using hcont
  obtain ⟨r, hrmem, hri⟩ := List.mem_map.mp hi
  have hrfil := List.take_subset n _ hrmem
  rcases List.mem_filter.mp hrfil with ⟨hrsort, hrkey⟩
  have hru : r.user = u := by
    have : r.user = key := by simpa using hrkey
    rw [this, hku]
  exact hall r (mem_sort_by_score_desc.mp hrsort) ⟨hru, hri⟩

/-- Claim C1: for a user holding a training interaction with an item, the
result of get_recommendations with exclude_training never contains that
(user, item) pair in either result shape, whatever the unfiltered scores;
with exclude_training off and otherwise identical inputs the same pair can
appear (shown on the demo state whose single training pair is returned by
its scorer). -/
theorem claim_C1_exclude_training (s : RecommenderState)
    (recF : List String → List String → ℕ → List RecoRow)
    (user_ids item_ids : Option (List String)) (n_rec n_rec_unfilt : ℕ)
    (fmt : String) (t : TrainRow) (ht : t ∈ s.train_df) :
    output_contains_pair
      (get_recommendations s recF user_ids item_ids n_rec n_rec_unfilt true fmt)
      t.user t.item = false ∧
    output_contains_pair
      (get_recommendations demo_state demo_scorer none none 10 100 false "flat")
      "u1" "i1" = true := by
  constructor
  · unfold get_recommendations
    simp only [if_true]
    have hall : ∀ r ∈ remove_training_from_df s.train_df
        (((reco_user_groups s
            (match user_ids with
              | some l => remove_unseen_users s l
              | none => all_users s) n_rec_unfilt).map
          (fun g => recF g.1
            (match item_ids with
              | some l => remove_unseen_items s l
              | none => all_items s) g.2)).flatten),
        ¬(r.user = t.user ∧ r.item = t.item) :=
      fun r hr => mem_remove_training_from_df hr ht
    by_cases hf : (fmt == "flat") = true
    · rw [if_pos hf]
      exact output_flat_no_pair hall
    · rw [if_neg hf]
      exact output_lists_no_pair hall
  · decide

/-- Witness for claim C1 on the demo state. -/
theorem claim_C1_witness :
    TrainRow.mk "u1" "i1" 1 ∈ demo_state.train_df ∧
    output_contains_pair
      (get_recommendations demo_state demo_scorer none none 10 100 true "flat")
      "u1" "i1" = false :=
  ⟨by decide,
   (claim_C1_exclude_training demo_state demo_scorer none none 10 100 "flat"
      (TrainRow.mk "u1" "i1" 1) (by decide)).1⟩

/-- Every member of a list of naturals is bounded by its max fold. -/
theorem le_foldr_max {l : List ℕ} {a : ℕ} (h : a ∈ l) : a ≤ l.foldr max 0 := by
  induction l with
  | nil => cases h
  | cons b l ih =>
    rcases List.mem_cons.mp h with rfl | hmem
    · exact le_max_left _ _
    · exact le_trans (ih hmem) (le_max_right _ _)

/-- Claim C3: when the heavy and normal user groups are both non-empty,
get_recommendations issues exactly two unfiltered requests - the heavy
group with width n_rec_unfilt plus the maximum heavy training count and
the normal group with width n_rec_unfilt; every requested user whose
training count reaches the threshold 50 lands in the heavy group, the
returned maximum dominates every heavy count, and the heavy width is
strictly larger than the normal width. -/
theorem claim_C3_heavy_user_request_width (s : RecommenderState)
    (uids : List String) (n_rec_unfilt : ℕ)
    (hh : (separate_heavy_users s uids 50).1 ≠ [])
    (hn : (separate_heavy_users s uids 50).2.1 ≠ []) :
    reco_user_groups s uids n_rec_unfilt =
      [((separate_heavy_users s uids 50).1,
        n_rec_unfilt + (separate_heavy_users s uids 50).2.2),
       ((separate_heavy_users s uids 50).2.1, n_rec_unfilt)] ∧
    (∀ u ∈ uids.dedup, 50 ≤ user_train_count s u →
      u ∈ (separate_heavy_users s uids 50).1) ∧
    (∀ u ∈ (separate_heavy_users s uids 50).1,
      user_train_count s u ≤ (separate_heavy_users s uids 50).2.2) ∧
    n_rec_unfilt < n_rec_unfilt + (separate_heavy_users s uids 50).2.2 := by
  have hmax : ∀ u ∈ (separate_heavy_users s uids 50).1,
      user_train_count s u ≤ (separate_heavy_users s uids 50).2.2 := by
    intro u hu
    simp only [separate_heavy_users] at hu ⊢
    exact le_foldr_max (List.mem_map_of_mem _ hu)
  refine ⟨?_, ?_, hmax, ?_⟩
  · have h1 : (separate_heavy_users s uids 50).1.isEmpty = false := by
      simp [List.isEmpty_iff, hh]
    have h2 : (separate_heavy_users s uids 50).2.1.isEmpty = false := by
      simp [List.isEmpty_iff, hn]
    simp only [reco_user_groups, h1, h2, Bool.false_eq_true, if_false,
      List.cons_append, List.nil_append]
  · intro u hu hcnt
    simp only [separate_heavy_users, List.mem_filter]
    refine ⟨⟨hu, ?_⟩, ?_⟩
    · simpa using lt_of_lt_of_le (by norm_num) hcnt
    · simpa using hcnt
  · obtain ⟨u, hu⟩ := List.exists_mem_of_ne_nil _ hh
    have h50 : 50 ≤ user_train_count s u := by
      have := hu
      simp only [separate_heavy_users, List.mem_filter] at this
      simpa using this.2
    have := le_trans h50 (hmax u hu)
    omega

/-- Witness for claim C3 on the state with one heavy and one normal
user. -/
theorem claim_C3_witness :
    100 < 100 + (separate_heavy_users heavy_demo_state ["uh", "un"] 50).2.2 :=
  (claim_C3_heavy_user_request_width heavy_demo_state ["uh", "un"] 100
    (by decide) (by decide)).2.2.2

/-- Claim C4: the cascade ensemble emits exactly the candidate (user, item)
pairs of its first member, and every emitted score is the second member
pointwise prediction for that exact pair - never a blend with the first
member score. -/
theorem claim_C4_cascade_scoring
    (stage_one : List String → ℕ → List RecoRow)
    (p : String → String → ℚ) (user_ids : List String) (n_rec_unfilt : ℕ) :
    frame_pairs (cascade_get_recommendations_flat_unfilt stage_one p user_ids n_rec_unfilt) =
      frame_pairs (stage_one user_ids n_rec_unfilt) ∧
    (∀ r ∈ cascade_get_recommendations_flat_unfilt stage_one p user_ids n_rec_unfilt,
      r.score = p r.user r.item) := by
  constructor
  · simp [frame_pairs, cascade_get_recommendations_flat_unfilt, predict_on_df,
      List.map_map, Function.comp]
  · intro r hr
    unfold cascade_get_recommendations_flat_unfilt predict_on_df at hr
    obtain ⟨a, -, rfl⟩ := List.mem_map.mp hr
    rfl

/-- Witness for claim C4 on a one-candidate stage one and a constant stage
two. -/
theorem claim_C4_witness :
    frame_pairs (cascade_get_recommendations_flat_unfilt
        (fun _ _ => [RecoRow.mk "u" "i" 3]) (fun _ _ => 7) ["u"] 5) =
      frame_pairs [RecoRow.mk "u" "i" 3] ∧
    (RecoRow.mk "u" "i" 7).score = (fun _ _ => (7 : ℚ)) "u" "i" :=
  ⟨(claim_C4_cascade_scoring (fun _ _ => [RecoRow.mk "u" "i" 3])
      (fun _ _ => 7) ["u"] 5).1,
   (claim_C4_cascade_scoring (fun _ _ => [RecoRow.mk "u" "i" 3])
      (fun _ _ => 7) ["u"] 5).2 (RecoRow.mk "u" "i" 7) (by decide)⟩

/-- Claim C7: with remove_self, get_similar_items asks most_similar for
n_simil + 1 neighbors, strips every same-id pair from the flat result, and
its lists output never lists a queried item among its own neighbors and
holds at most n_simil neighbors per queried item. -/
theorem claim_C7_get_similar_items (s : RecommenderState)
    (ms : List String → ℕ → List (List (String × ℚ)))
    (item_ids : Option (List String)) (n_simil : ℕ) :
    (simil_request_width true n_simil = n_simil + 1) ∧
    (∀ rows, get_similar_items s ms item_ids n_simil true "flat" = .flat rows →
       ∀ r ∈ rows, r.user ≠ r.item) ∧
    (∀ gs, get_similar_items s ms item_ids n_simil true "lists" = .lists gs →
       ∀ g ∈ gs, g.group ∉ g.items ∧ g.items.length ≤ n_simil) := by
  refine ⟨rfl, ?_, ?_⟩
  · intro rows heq r hr
    have hflat : strContains "flat" "lists" = false := by decide
    simp only [get_similar_items, hflat, Bool.false_eq_true, if_false,
      if_true, RecoOutput.flat.injEq] at heq
    subst heq
    rcases List.mem_filter.mp hr with ⟨-, hcond⟩
    simpa using hcond
  · intro gs heq g hg
    have hlists : strContains "lists" "lists" = true := by decide
    simp only [get_similar_items, hlists, if_true, RecoOutput.lists.injEq] at heq
    subst heq
    obtain ⟨key, hkey, hgk⟩ := List.mem_map.mp hg
    subst hgk
    constructor
    · intro hcont
      obtain ⟨r, hrmem, hri⟩ := List.mem_map.mp hcont
      have hrfil := List.take_subset n_simil _ hrmem
      rcases List.mem_filter.mp hrfil with ⟨hrsort, hrkey⟩
      have hrk : r.user = key := by simpa using hrkey
      have hrself := mem_sort_by_score_desc.mp hrsort
      rcases List.mem_filter.mp hrself with ⟨-, hne⟩
      have : r.user ≠ r.item := by simpa using hne
      exact this (by rw [hrk, hri])
    · calc ((((sort_by_score_desc _).filter
            (fun r => r.user == key)).take n_simil).map (fun r => r.item)).length
          = (((sort_by_score_desc _).filter
            (fun r => r.user == key)).take n_simil).length := List.length_map _ _
        _ ≤ n_simil := List.length_take_le _ _

/-- Witness for claim C7 on a one-item state whose kernel returns one
foreign neighbor. -/
theorem claim_C7_witness :
    simil_request_width true 2 = 3 ∧
    (RecoRow.mk "a" "b" 1).user ≠ (RecoRow.mk "a" "b" 1).item :=
  ⟨(claim_C7_get_similar_items (⟨[⟨"x", "a", 1⟩]⟩ : RecommenderState)
      (fun ids _ => ids.map (fun _ => [("b", (1 : ℚ))])) none 2).1,
   (claim_C7_get_similar_items (⟨[⟨"x", "a", 1⟩]⟩ : RecommenderState)
      (fun ids _ => ids.map (fun _ => [("b", (1 : ℚ))])) none 2).2.1
     [RecoRow.mk "a" "b" 1] (by decide) (RecoRow.mk "a" "b" 1) (by decide)⟩

/-- The key filter of a rank frame is empty exactly when the frame lacks
the key pair. -/
theorem filter_key_isEmpty_iff {df : List (String × String × ℚ)} {g i : String} :
    (df.filter (fun m => m.1 == g && m.2.1 == i)).isEmpty = true ↔
      (g, i) ∉ triple_pairs df := by
  rw [List.isEmpty_iff, List.filter_eq_nil_iff]
  constructor
  · intro h hmem
    obtain ⟨m, hm, hkey⟩ := List.mem_map.mp hmem
    have hg : m.1 = g := congrArg Prod.fst hkey
    have hi : m.2.1 = i := congrArg Prod.snd hkey
    have hc := h m hm
    simp [hg, hi] at hc
  · intro h m hm
    simp only [Bool.and_eq_true, beq_iff_eq, not_and]
    intro hg hi
    exact absurd (List.mem_map.mpr ⟨m, hm, by simp [hg, hi]⟩) h

/-- Every row produced by join_row keeps the key of the accumulated row. -/
theorem join_row_key {df : List (String × String × ℚ)} {a row : MergedRow}
    (h : row ∈ join_row df a) : row.group = a.group ∧ row.item = a.item := by
  simp only [join_row] at h
  by_cases hms : (df.filter (fun m => m.1 == a.group && m.2.1 == a.item)).isEmpty = true
  · rw [if_pos hms] at h
    rw [List.mem_singleton.mp h]
    exact ⟨rfl, rfl⟩
  · rw [if_neg hms] at h
    obtain ⟨m, hm, hrow⟩ := List.mem_map.mp h
    rw [← hrow]
    exact ⟨rfl, rfl⟩

/-- join_row never produces an empty row list. -/
theorem join_row_ne_nil (df : List (String × String × ℚ)) (a : MergedRow) :
    join_row df a ≠ [] := by
  simp only [join_row]
  by_cases hms : (df.filter (fun m => m.1 == a.group && m.2.1 == a.item)).isEmpty = true
  · rw [if_pos hms]
    simp
  · rw [if_neg hms]
    simp only [ne_eq, List.map_eq_nil_iff]
    rw [← List.isEmpty_iff]
    simpa using hms

/-- Every row produced by join_row extends the accumulated ranks by one
column. -/
theorem join_row_ranks_shape {df : List (String × String × ℚ)} {a row : MergedRow}
    (h : row ∈ join_row df a) : ∃ x, row.ranks = a.ranks ++ [x] := by
  simp only [join_row] at h
  by_cases hms : (df.filter (fun m => m.1 == a.group && m.2.1 == a.item)).isEmpty = true
  · rw [if_pos hms] at h
    exact ⟨none, by rw [List.mem_singleton.mp h]⟩
  · rw [if_neg hms] at h
    obtain ⟨m, hm, hrow⟩ := List.mem_map.mp h
    exact ⟨some m.2.2, by rw [← hrow]⟩

/-- When the rank frame lacks the key of the accumulated row, join_row
appends exactly one missing rank. -/
theorem join_row_ranks_missing {df : List (String × String × ℚ)} {a row : MergedRow}
    (hmiss : (a.group, a.item) ∉ triple_pairs df) (h : row ∈ join_row df a) :
    row.ranks = a.ranks ++ [none] := by
  simp only [join_row] at h
  have hms : (df.filter (fun m => m.1 == a.group && m.2.1 == a.item)).isEmpty = true :=
    filter_key_isEmpty_iff.mpr hmiss
  rw [if_pos hms] at h
  rw [List.mem_singleton.mp h]

/-- One outer-merge step holds exactly the keys of the accumulated frame
together with the keys of the incoming rank frame. -/
theorem mem_merged_pairs_merge_outer {acc : List MergedRow} {k : ℕ}
    {df : List (String × String × ℚ)} {g i : String} :
    (g, i) ∈ merged_pairs (merge_outer acc k df) ↔
      (g, i) ∈ merged_pairs acc ∨ (g, i) ∈ triple_pairs df := by
  constructor
  · intro h
    obtain ⟨row, hrow, hkey⟩ := List.mem_map.mp h
    have hg : row.group = g := congrArg Prod.fst hkey
    have hi : row.item = i := congrArg Prod.snd hkey
    rw [merge_outer, List.mem_append] at hrow
    rcases hrow with hl | hr
    · obtain ⟨sub, hsub, hrowsub⟩ := List.mem_flatten.mp hl
      obtain ⟨a, ha, hfa⟩ := List.mem_map.mp hsub
      rw [← hfa] at hrowsub
      obtain ⟨hga, hia⟩ := join_row_key hrowsub
      left
      exact List.mem_map.mpr ⟨a, ha, by rw [← hga, ← hia, hg, hi]⟩
    · obtain ⟨m, hm, hmk⟩ := List.mem_map.mp hr
      right
      have hmdf := List.mem_filter.mp hm |>.1
      refine List.mem_map.mpr ⟨m, hmdf, ?_⟩
      rw [← hg, ← hi, ← hmk]
  · intro h
    by_cases hacc : (g, i) ∈ merged_pairs acc
    · obtain ⟨a, ha, hkey⟩ := List.mem_map.mp hacc
      obtain ⟨row, hrowmem⟩ := List.exists_mem_of_ne_nil _ (join_row_ne_nil df a)
      obtain ⟨hga, hia⟩ := join_row_key hrowmem
      refine List.mem_map.mpr ⟨row, ?_, ?_⟩
      · rw [merge_outer, List.mem_append]
        left
        exact List.mem_flatten.mpr ⟨join_row df a, List.mem_map.mpr ⟨a, ha, rfl⟩, hrowmem⟩
      · rw [hga, hia, hkey]
    · rcases h with h | h
      · exact absurd h hacc
      · obtain ⟨m, hm, hkey⟩ := List.mem_map.mp h
        have hpred : (!(acc.any (fun a => a.group == m.1 && a.item == m.2.1))) = true := by
          simp only [Bool.not_eq_true', List.any_eq_false]
          intro a ha
          simp only [Bool.and_eq_true, beq_iff_eq, not_and]
          intro hga hia
          exact absurd (List.mem_map.mpr ⟨a, ha, by rw [hga, hia, hkey]⟩) hacc
        refine List.mem_map.mpr
          ⟨MergedRow.mk m.1 m.2.1 (List.replicate k none ++ [some m.2.2]), ?_, hkey⟩
        rw [merge_outer, List.mem_append]
        right
        exact List.mem_map.mpr ⟨m, List.mem_filter.mpr ⟨hm, hpred⟩, rfl⟩

/-- The fold of outer merges holds exactly the accumulated keys together
with the keys of every remaining rank frame. -/
theorem mem_merged_pairs_merge_ranked (rest : List (List (String × String × ℚ)))
    {g i : String} :
    ∀ (acc : List MergedRow) (k : ℕ),
      (g, i) ∈ merged_pairs (merge_ranked acc k rest) ↔
        (g, i) ∈ merged_pairs acc ∨ ∃ df ∈ rest, (g, i) ∈ triple_pairs df := by
  induction rest with
  | nil => intro acc k; simp [merge_ranked]
  | cons df rest ih =>
    intro acc k
    rw [merge_ranked, ih, mem_merged_pairs_merge_outer]
    constructor
    · rintro ((h | h) | ⟨d, hd, h⟩)
      · exact Or.inl h
      · exact Or.inr ⟨df, List.mem_cons_self df rest, h⟩
      · exact Or.inr ⟨d, List.mem_cons_of_mem df hd, h⟩
    · rintro (h | ⟨d, hd, h⟩)
      · exact Or.inl (Or.inl h)
      · rcases List.mem_cons.mp hd with rfl | hd'
        · exact Or.inl (Or.inr h)
        · exact Or.inr ⟨d, hd', h⟩

/-- The keys of the seed frame are the keys of the first rank frame. -/
theorem merged_pairs_init (df : List (String × String × ℚ)) :
    merged_pairs (init_merged df) = triple_pairs df := by
  simp [merged_pairs, init_merged, triple_pairs, List.map_map]

/-- The rank column transformation keeps the key pairs of the frame. -/
theorem triple_pairs_rank_col (df : List RecoRow) :
    triple_pairs (rank_col df) = frame_pairs df := by
  simp [triple_pairs, rank_col, frame_pairs, List.map_map]

/-- The merged frame holds exactly the union of the key pairs of the
member rank frames. -/
theorem mem_merged_pairs_merge_all {FS : List (List (String × String × ℚ))}
    {g i : String} (hne : FS ≠ []) :
    (g, i) ∈ merged_pairs (merge_all FS) ↔ ∃ df ∈ FS, (g, i) ∈ triple_pairs df := by
  cases FS with
  | nil => exact absurd rfl hne
  | cons df rest =>
    rw [merge_all, mem_merged_pairs_merge_ranked, merged_pairs_init]
    constructor
    · rintro (h | ⟨d, hd, h⟩)
      · exact ⟨df, List.mem_cons_self df rest, h⟩
      · exact ⟨d, List.mem_cons_of_mem df hd, h⟩
    · rintro ⟨d, hd, h⟩
      rcases List.mem_cons.mp hd with rfl | hd'
      · exact Or.inl h
      · exact Or.inr ⟨d, hd', h⟩

/-- One outer-merge step extends every rank vector to k + 1 columns. -/
theorem merge_outer_len {acc : List MergedRow} {k : ℕ}
    {df : List (String × String × ℚ)}
    (hlen : ∀ a ∈ acc, a.ranks.length = k) :
    ∀ row ∈ merge_outer acc k df, row.ranks.length = k + 1 := by
  intro row hrow
  rw [merge_outer, List.mem_append] at hrow
  rcases hrow with hl | hr
  · obtain ⟨sub, hsub, hrowsub⟩ := List.mem_flatten.mp hl
    obtain ⟨a, ha, hfa⟩ := List.mem_map.mp hsub
    rw [← hfa] at hrowsub
    obtain ⟨x, hx⟩ := join_row_ranks_shape hrowsub
    rw [hx, List.length_append, hlen a ha]
    rfl
  · obtain ⟨m, hm, hmk⟩ := List.mem_map.mp hr
    rw [← hmk]
    simp

/-- One outer-merge step: at every pre-existing rank position a row either
holds a missing rank or inherits the value of an accumulated row with its
key, and at the new position a row whose key the incoming frame lacks
holds a missing rank. -/
theorem merge_outer_trace {acc : List MergedRow} {k : ℕ}
    {df : List (String × String × ℚ)}
    (hlen : ∀ a ∈ acc, a.ranks.length = k) :
    ∀ row ∈ merge_outer acc k df,
      (∀ j, j < k → (row.ranks[j]? = some none ∨
        ∃ a ∈ acc, a.group = row.group ∧ a.item = row.item ∧
          row.ranks[j]? = a.ranks[j]?)) ∧
      ((row.group, row.item) ∉ triple_pairs df → row.ranks[k]? = some none) := by
  intro row hrow
  rw [merge_outer, List.mem_append] at hrow
  rcases hrow with hl | hr
  · obtain ⟨sub, hsub, hrowsub⟩ := List.mem_flatten.mp hl
    obtain ⟨a, ha, hfa⟩ := List.mem_map.mp hsub
    rw [← hfa] at hrowsub
    obtain ⟨hga, hia⟩ := join_row_key hrowsub
    obtain ⟨x, hx⟩ := join_row_ranks_shape hrowsub
    constructor
    · intro j hj
      right
      refine ⟨a, ha, hga.symm, hia.symm, ?_⟩
      rw [hx, List.getElem?_append_left (by rw [hlen a ha]; exact hj)]
    · intro hmiss
      have hmiss' : (a.group, a.item) ∉ triple_pairs df := by
        rw [← hga, ← hia]; exact hmiss
      have hnone := join_row_ranks_missing hmiss' hrowsub
      rw [hnone]
      rw [List.getElem?_append_right (by rw [hlen a ha])]
      rw [hlen a ha]
      simp
  · obtain ⟨m, hm, hmk⟩ := List.mem_map.mp hr
    have hmdf := List.mem_filter.mp hm |>.1
    constructor
    · intro j hj
      left
      rw [← hmk]
      show (List.replicate k (none : Option ℚ) ++ [some m.2.2])[j]? = some none
      rw [List.getElem?_append_left (by simpa using hj)]
      simp [List.getElem?_replicate, hj]
    · intro hmiss
      exfalso
      refine absurd (List.mem_map.mpr ⟨m, hmdf, ?_⟩) hmiss
      rw [← hmk]

/-- Trace of the whole merge fold: final rank vectors have one column per
processed frame; pre-existing positions are missing or inherited from an
accumulated row with the same key; and any later position whose frame
lacks the key of the row is missing. -/
theorem merge_ranked_trace (rest : List (List (String × String × ℚ))) :
    ∀ (acc : List MergedRow) (k : ℕ),
      (∀ a ∈ acc, a.ranks.length = k) →
      ∀ row ∈ merge_ranked acc k rest,
        row.ranks.length = k + rest.length ∧
        (∀ j, j < k → (row.ranks[j]? = some none ∨
          ∃ a ∈ acc, a.group = row.group ∧ a.item = row.item ∧
            row.ranks[j]? = a.ranks[j]?)) ∧
        (∀ d, (hd : d < rest.length) →
          (row.group, row.item) ∉ triple_pairs (rest.get ⟨d, hd⟩) →
          row.ranks[k + d]? = some none) := by
  induction rest with
  | nil =>
    intro acc k hlen row hrow
    rw [merge_ranked] at hrow
    refine ⟨by rw [hlen row hrow]; rfl, ?_, ?_⟩
    · intro j hj
      exact Or.inr ⟨row, hrow, rfl, rfl, rfl⟩
    · intro d hd
      exact absurd hd (by simp)
  | cons df rest ih =>
    intro acc k hlen row hrow
    rw [merge_ranked] at hrow
    have hlen' := @merge_outer_len acc k df hlen
    obtain ⟨ihlen, ihold, ihnew⟩ := ih (merge_outer acc k df) (k + 1) hlen' row hrow
    refine ⟨by rw [ihlen]; simp [Nat.add_assoc, Nat.add_comm 1], ?_, ?_⟩
    · intro j hj
      rcases ihold j (Nat.lt_succ_of_lt hj) with hnone | ⟨a', ha', hga', hia', hval⟩
      · exact Or.inl hnone
      · obtain ⟨htraceold, -⟩ := merge_outer_trace hlen a' ha'
        rcases htraceold j hj with hnone' | ⟨a, ha, hga, hia, hval'⟩
        · exact Or.inl (by rw [hval, hnone'])
        · exact Or.inr ⟨a, ha, by rw [hga, hga'], by rw [hia, hia'],
            by rw [hval, hval']⟩
    · intro d hd hmiss
      cases d with
      | zero =>
        have hmiss0 : (row.group, row.item) ∉ triple_pairs df := by
          simpa using hmiss
        rcases ihold k (Nat.lt_succ_self k) with hnone | ⟨a', ha', hga', hia', hval⟩
        · simpa using hnone
        · obtain ⟨-, htracenew⟩ := merge_outer_trace hlen a' ha'
          have hmiss' : (a'.group, a'.item) ∉ triple_pairs df := by
            rw [hga', hia']; exact hmiss0
          have := htracenew hmiss'
          rw [Nat.add_zero, hval, this]
      | succ d' =>
        have hd' : d' < rest.length := by
          simpa using hd
        have hget : rest.get ⟨d', hd'⟩ = (df :: rest).get ⟨d' + 1, hd⟩ := rfl
        have := ihnew d' hd' (by rw [hget]; exact hmiss)
        rw [← this]
        congr 1
        omega

/-- The seed frame carries one rank column. -/
theorem init_merged_len (df : List (String × String × ℚ)) :
    ∀ a ∈ init_merged df, a.ranks.length = 1 := by
  intro a ha
  obtain ⟨m, hm, hmk⟩ := List.mem_map.mp ha
  rw [← hmk]
  rfl

/-- The merged frame carries one rank column per member frame. -/
theorem merge_all_len {FS : List (List (String × String × ℚ))} (hne : FS ≠ []) :
    ∀ row ∈ merge_all FS, row.ranks.length = FS.length := by
  cases FS with
  | nil => exact absurd rfl hne
  | cons df rest =>
    intro row hrow
    rw [merge_all] at hrow
    obtain ⟨hl, -, -⟩ :=
      merge_ranked_trace rest (init_merged df) 1 (init_merged_len df) row hrow
    rw [hl, List.length_cons]
    omega

/-- In the merged frame, a row whose key is absent from the j-th member
rank frame holds a missing rank at position j. -/
theorem merge_all_missing {FS : List (List (String × String × ℚ))} {g i : String}
    {j : ℕ} (hj : j < FS.length)
    (hmiss : (g, i) ∉ triple_pairs (FS.get ⟨j, hj⟩)) :
    ∀ row ∈ merge_all FS, row.group = g → row.item = i →
      row.ranks[j]? = some none := by
  cases FS with
  | nil => exact absurd hj (by simp)
  | cons df rest =>
    intro row hrow hg hi
    rw [merge_all] at hrow
    obtain ⟨-, hold, hnew⟩ :=
      merge_ranked_trace rest (init_merged df) 1 (init_merged_len df) row hrow
    cases j with
    | zero =>
      rcases hold 0 Nat.zero_lt_one with hnone | ⟨a, ha, hga, hia, hval⟩
      · exact hnone
      · exfalso
        have hkey : (g, i) ∈ merged_pairs (init_merged df) :=
          List.mem_map.mpr ⟨a, ha, by rw [hga, hia, hg, hi]⟩
        rw [merged_pairs_init] at hkey
        exact hmiss hkey
    | succ d =>
      have hd : d < rest.length := by
        simpa using hj
      have hget : rest.get ⟨d, hd⟩ = (df :: rest).get ⟨d + 1, hj⟩ := rfl
      have := hnew d hd (by rw [hget, hg, hi]; exact hmiss)
      rw [← this]
      congr 1
      omega

/-- The fused frame keeps exactly the key pairs of the merged frame. -/
theorem frame_pairs_combine_frames (frames : List (List RecoRow))
    (combine_func : List ℚ → ℚ) (fill_val : ℚ) :
    frame_pairs (combine_frames frames combine_func fill_val) =
      merged_pairs (merge_all (frames.map rank_col)) := by
  simp [frame_pairs, combine_frames, recip_rank_rows, fill_na, merged_pairs,
    List.map_map]

/-- Every reciprocal-rank row comes from a merged row with the same key,
its vector being the elementwise filled reciprocal of the merged ranks. -/
theorem recip_rank_rows_shape {frames : List (List RecoRow)} {fill : ℚ} :
    ∀ r ∈ recip_rank_rows frames fill,
      ∃ m ∈ merge_all (frames.map rank_col),
        r.1 = m.group ∧ r.2.1 = m.item ∧
        r.2.2 = (m.ranks.map (fun o => o.getD fill)).map (fun x => 1 / x) := by
  intro r hr
  unfold recip_rank_rows fill_na at hr
  rw [List.map_map] at hr
  obtain ⟨m, hm, hmk⟩ := List.mem_map.mp hr
  exact ⟨m, hm, by rw [← hmk]; rfl, by rw [← hmk]; rfl, by rw [← hmk]; rfl⟩

/-- Claim C2: calc_dfs_and_combine_scores is deterministic (the
multithreaded precomputation path returns the same frame as the sequential
path); its output holds exactly the union of the (group, item) pairs of
the member frames; the default fill of the ensemble wrapper is
n_unfilt + 1; and for a member frame lacking a key pair, that member
position of the reciprocal-rank vector of every output row with the pair
is exactly 1 / (n_unfilt + 1) - present, never absent or zero. -/
theorem claim_C2_rank_fusion (calc_funcs : List (Unit → List RecoRow))
    (combine_func : List ℚ → ℚ) (fill_val : ℚ) (g i : String) (n_unfilt : ℕ) :
    (calc_dfs_and_combine_scores true calc_funcs combine_func fill_val =
      calc_dfs_and_combine_scores false calc_funcs combine_func fill_val) ∧
    (calc_funcs ≠ [] →
      ((g, i) ∈ frame_pairs
          (calc_dfs_and_combine_scores false calc_funcs combine_func fill_val) ↔
        ∃ f ∈ calc_funcs, (g, i) ∈ frame_pairs (f ()))) ∧
    (combined_rank_fill_val none n_unfilt = (n_unfilt : ℚ) + 1) ∧
    (∀ frames : List (List RecoRow), frames ≠ [] →
      ∀ r ∈ recip_rank_rows frames ((n_unfilt : ℚ) + 1),
        r.2.2.length = frames.length) ∧
    (∀ (frames : List (List RecoRow)) (j : ℕ) (hj : j < frames.length),
      (g, i) ∉ frame_pairs (frames.get ⟨j, hj⟩) →
      ∀ r ∈ recip_rank_rows frames ((n_unfilt : ℚ) + 1),
        r.1 = g → r.2.1 = i →
        r.2.2[j]? = some (1 / ((n_unfilt : ℚ) + 1))) := by
  refine ⟨?_, ?_, rfl, ?_, ?_⟩
  · cases calc_funcs <;> rfl
  · intro hne
    have hF : (calc_funcs.map (fun f => f ())).map rank_col ≠ [] := by
      simp [hne]
    show (g, i) ∈ frame_pairs (combine_frames (calc_funcs.map (fun f => f ()))
        combine_func fill_val) ↔ _
    rw [frame_pairs_combine_frames, mem_merged_pairs_merge_all hF]
    constructor
    · rintro ⟨df, hdf, h⟩
      obtain ⟨fr, hfr, hfr2⟩ := List.mem_map.mp hdf
      rw [← hfr2, triple_pairs_rank_col] at h
      obtain ⟨f, hf, hf2⟩ := List.mem_map.mp hfr
      rw [← hf2] at h
      exact ⟨f, hf, h⟩
    · rintro ⟨f, hf, h⟩
      exact ⟨rank_col (f ()),
        List.mem_map.mpr ⟨f (), List.mem_map.mpr ⟨f, hf, rfl⟩, rfl⟩,
        by rw [triple_pairs_rank_col]; exact h⟩
  · intro frames hne r hr
    obtain ⟨m, hm, -, -, hvec⟩ := recip_rank_rows_shape r hr
    have hFne : frames.map rank_col ≠ [] := by simp [hne]
    rw [hvec, List.length_map, List.length_map, merge_all_len hFne m hm,
      List.length_map]
  · intro frames j hj hmiss r hr hg hi
    obtain ⟨m, hm, hmg, hmi, hvec⟩ := recip_rank_rows_shape r hr
    have hj2 : j < (frames.map rank_col).length := by simpa using hj
    have hget : (frames.map rank_col).get ⟨j, hj2⟩ = rank_col (frames.get ⟨j, hj⟩) := by
      simp [List.getElem_map]
    have hmiss2 : (g, i) ∉ triple_pairs ((frames.map rank_col).get ⟨j, hj2⟩) := by
      rw [hget, triple_pairs_rank_col]
      exact hmiss
    have hnone : m.ranks[j]? = some none :=
      merge_all_missing hj2 hmiss2 m hm (by rw [← hmg, hg]) (by rw [← hmi, hi])
    rw [hvec, List.getElem?_map, List.getElem?_map, hnone]
    rfl

/-- Witness for claim C2: with two one-row member frames over the same
group, the pair of the first member is absent from the second member, so
the second position of its reciprocal vector is the filled value
1 / (10 + 1); the default fill for width 10 is 11. -/
theorem claim_C2_witness :
    combined_rank_fill_val none 10 = (10 : ℚ) + 1 ∧
    (∀ r ∈ recip_rank_rows [[RecoRow.mk "u" "a" 2], [RecoRow.mk "u" "b" 3]]
        ((10 : ℚ) + 1),
      r.1 = "u" → r.2.1 = "a" → r.2.2[1]? = some (1 / ((10 : ℚ) + 1))) :=
  ⟨(claim_C2_rank_fusion [] (fun _ => 0) 0 "u" "a" 10).2.2.1,
   fun r hr => (claim_C2_rank_fusion [] (fun _ => 0) 0 "u" "a" 10).2.2.2.2
     [[RecoRow.mk "u" "a" 2], [RecoRow.mk "u" "b" 3]] 1 (by decide)
     (by decide) r hr⟩
